import Mathlib

/-!
Shallow embedding of the `s3_deploy` deployment script (s3_deploy/main.py).

The filesystem and the remote object store are modelled as oracles:
`localMd5 : String → String` plays the role of `md5Checksum` applied to a
local path, and `store : String → String` plays the role of
`oBoto.get_object` returning the body of an object.  Remote listings are the
explicit data the script receives from `list_objects_v2`.
-/

namespace S3Deploy

/-- One entry of the Contents array of a `list_objects_v2` response. -/
structure RawObject where
  key : String
  etag : String
  size : Int
  lastModified : Int
  deriving Repr, DecidableEq

/-- One value of the `aFiles` dictionary built by `Deploy.getS3Files`. -/
structure FileRecord where
  key : String
  etag : String
  size : Int
  modified : Int
  deriving Repr, DecidableEq

/-- The constant CACHE_SECONDS = 90 * 24 * 60 * 60. -/
def CACHE_SECONDS : Nat := 90 * 24 * 60 * 60

/-- The constant NO_CACHE_FILES: the entry document index.html and the
asset manifest asset-manifest.json. -/
def NO_CACHE_FILES : List String := ["index.html", "asset-manifest.json"]

/-- Embeds searchList(sNeedle, aHaystack): index of an element in a list,
or the Python False when absent (modelled as `Option Nat`, with `none`
standing for False). -/
def searchList (sNeedle : String) (aHaystack : List String) : Option Nat :=
  aHaystack.indexOf? sNeedle

/-- Boolean prefix test on character lists. -/
def isPrefixChars : List Char → List Char → Bool
  | [], _ => true
  | _ :: _, [] => false
  | a :: as, b :: bs => a == b && isPrefixChars as bs

/-- Embeds re.match of the literal pattern precache-manifest against s:
the regex is anchored at the start of the string, so this is a prefix
test on the whole key. -/
def isManifestKey (s : String) : Bool :=
  isPrefixChars "precache-manifest".data s.data

/-- The etag recorded for `sFile` in the `aS3FileInfo` dictionary
(the etag field of the entry of sFile in aS3FileInfo); the dictionary is
modelled as a list of records keyed by `key`. -/
def s3Etag (aS3FileInfo : List FileRecord) (sFile : String) : String :=
  match aS3FileInfo.find? (fun r => r.key == sFile) with
  | some r => r.etag
  | none => ""

/-- Embeds Deploy.compareFiles(aBuildFiles, aS3FileInfo) with the
bForceTransfer option and the local-checksum oracle made explicit.
Returns the pair (aNewFiles, aOldS3Files). -/
def compareFiles (bForceTransfer : Bool) (localMd5 : String → String)
    (aBuildFiles : List String) (aS3FileInfo : List FileRecord) :
    List String × List String :=
  let aS3Files := aS3FileInfo.map (fun r => r.key)
  let aNewOnly := aBuildFiles.filter (fun f => !(aS3Files.contains f))
  let aOldS3Files := aS3Files.filter (fun f => !(aBuildFiles.contains f))
  let aCommonFiles := aBuildFiles.filter (fun f => aS3Files.contains f)
  let aCommonNew := aCommonFiles.filter (fun f =>
    bForceTransfer || s3Etag aS3FileInfo f != localMd5 f || isManifestKey f)
  (aNewOnly ++ aCommonNew, aOldS3Files)

/-- The bare filename of a `/`-separated key: the final path component.
Used only to state the phrase of the spec about a filename beginning
with precache-manifest, for comparison against the anchored match of the
code. -/
def fileName (s : String) : String :=
  String.mk ((s.data.reverse.takeWhile (fun c => !(c == '/'))).reverse)

end S3Deploy

namespace S3Deploy

/-- C2: every reconciliation result has `toUpload ∩ toDelete = ∅`,
`toUpload ⊆ localKeys` and `toDelete ⊆ remoteKeys`. -/
theorem compareFiles_disjoint_subsets (bForce : Bool) (localMd5 : String → String)
    (aBuildFiles : List String) (aS3FileInfo : List FileRecord) :
    (∀ x, ¬(x ∈ (compareFiles bForce localMd5 aBuildFiles aS3FileInfo).1 ∧
            x ∈ (compareFiles bForce localMd5 aBuildFiles aS3FileInfo).2)) ∧
    (∀ x ∈ (compareFiles bForce localMd5 aBuildFiles aS3FileInfo).1, x ∈ aBuildFiles) ∧
    (∀ x ∈ (compareFiles bForce localMd5 aBuildFiles aS3FileInfo).2,
      x ∈ aS3FileInfo.map (fun r => r.key)) := by
  refine ⟨?_, ?_, ?_⟩
  · intro x hx
    obtain ⟨h1, h2⟩ := hx
    simp only [compareFiles, List.mem_append, List.mem_filter] at h1 h2
    have hxB : x ∈ aBuildFiles := by
      rcases h1 with h1 | h1
      · exact h1.1
      · exact h1.1.1
    have hnB : ¬ x ∈ aBuildFiles := by simpa using h2.2
    exact hnB hxB
  · intro x hx
    simp only [compareFiles, List.mem_append, List.mem_filter] at hx
    rcases hx with hx | hx
    · exact hx.1
    · exact hx.1.1
  · intro x hx
    simp only [compareFiles, List.mem_filter] at hx
    exact hx.1

end S3Deploy

namespace S3Deploy

/-- C3: a key present in both inventories with equal local and remote
checksums, `forceAll = false`, and not matching the manifest pattern, is
placed in neither `toUpload` nor `toDelete`. -/
theorem compareFiles_checksum_noop (localMd5 : String → String)
    (aBuildFiles : List String) (aS3FileInfo : List FileRecord) (f : String)
    (hb : f ∈ aBuildFiles)
    (hs : f ∈ aS3FileInfo.map (fun r => r.key))
    (hsum : s3Etag aS3FileInfo f = localMd5 f)
    (hman : isManifestKey f = false) :
    f ∉ (compareFiles false localMd5 aBuildFiles aS3FileInfo).1 ∧
    f ∉ (compareFiles false localMd5 aBuildFiles aS3FileInfo).2 := by
  constructor
  · intro hf
    simp only [compareFiles, List.mem_append, List.mem_filter] at hf
    rcases hf with hf | hf
    · exact (by simpa using hf.2 : ¬ f ∈ aS3FileInfo.map (fun r => r.key)) hs
    · have hc := hf.2
      simp [hsum, hman] at hc
  · intro hf
    simp only [compareFiles, List.mem_filter] at hf
    exact (by simpa using hf.2 : ¬ f ∈ aBuildFiles) hb

/-- Witness for C3 at a concrete input. -/
theorem compareFiles_checksum_noop_witness :
    "a.css" ∉ (compareFiles false (fun _ => "e") ["a.css"]
      [⟨"a.css", "e", 1, 0⟩]).1 ∧
    "a.css" ∉ (compareFiles false (fun _ => "e") ["a.css"]
      [⟨"a.css", "e", 1, 0⟩]).2 :=
  compareFiles_checksum_noop (fun _ => "e") ["a.css"] [⟨"a.css", "e", 1, 0⟩]
    "a.css" (by decide) (by decide) (by decide) (by decide)

/-- C5: with `forceAll = true` every common key lands in `toUpload`,
regardless of checksums. -/
theorem compareFiles_force_uploads_common (localMd5 : String → String)
    (aBuildFiles : List String) (aS3FileInfo : List FileRecord) (f : String)
    (hb : f ∈ aBuildFiles)
    (hs : f ∈ aS3FileInfo.map (fun r => r.key)) :
    f ∈ (compareFiles true localMd5 aBuildFiles aS3FileInfo).1 := by
  simp only [compareFiles, List.mem_append, List.mem_filter]
  right
  exact ⟨⟨hb, by simpa using hs⟩, by simp⟩

/-- Witness for C5 at a concrete input. -/
theorem compareFiles_force_uploads_common_witness :
    "a.css" ∈ (compareFiles true (fun _ => "e") ["a.css"]
      [⟨"a.css", "e", 1, 0⟩]).1 :=
  compareFiles_force_uploads_common (fun _ => "e") ["a.css"]
    [⟨"a.css", "e", 1, 0⟩] "a.css" (by decide) (by decide)

/-- C4 counterexample: a manifest file in a subdirectory.  Its filename
begins with `precache-manifest`, it is present in both inventories with
identical checksums and `forceAll = false`, yet it is NOT added to
`toUpload`: `re.match` anchors the pattern at the start of the whole
relative key, so `static/precache-manifest-1.js` does not match. -/
theorem compareFiles_subdir_manifest_counterexample :
    isManifestKey (fileName "static/precache-manifest-1.js") = true ∧
    "static/precache-manifest-1.js" ∈ ["static/precache-manifest-1.js"] ∧
    "static/precache-manifest-1.js" ∈
      ([⟨"static/precache-manifest-1.js", "e", 1, 0⟩] : List FileRecord).map
        (fun r => r.key) ∧
    s3Etag [⟨"static/precache-manifest-1.js", "e", 1, 0⟩]
      "static/precache-manifest-1.js" =
      (fun _ => "e") "static/precache-manifest-1.js" ∧
    "static/precache-manifest-1.js" ∉
      (compareFiles false (fun _ => "e") ["static/precache-manifest-1.js"]
        [⟨"static/precache-manifest-1.js", "e", 1, 0⟩]).1 := by
  refine ⟨by decide, by decide, by decide, by decide, by decide⟩

/-- C4 (amended): a common key whose full relative key begins with
`precache-manifest` is always added to `toUpload`, whatever the force flag
and the checksums. -/
theorem compareFiles_manifest_always_upload (bForce : Bool)
    (localMd5 : String → String)
    (aBuildFiles : List String) (aS3FileInfo : List FileRecord) (f : String)
    (hb : f ∈ aBuildFiles)
    (hs : f ∈ aS3FileInfo.map (fun r => r.key))
    (hman : isManifestKey f = true) :
    f ∈ (compareFiles bForce localMd5 aBuildFiles aS3FileInfo).1 := by
  simp only [compareFiles, List.mem_append, List.mem_filter]
  right
  exact ⟨⟨hb, by simpa using hs⟩, by simp [hman]⟩

/-- Witness for the amended C4 at a concrete input. -/
theorem compareFiles_manifest_always_upload_witness :
    "precache-manifest-1.js" ∈ (compareFiles false (fun _ => "e")
      ["precache-manifest-1.js"] [⟨"precache-manifest-1.js", "e", 1, 0⟩]).1 :=
  compareFiles_manifest_always_upload false (fun _ => "e")
    ["precache-manifest-1.js"] [⟨"precache-manifest-1.js", "e", 1, 0⟩]
    "precache-manifest-1.js" (by decide) (by decide) (by decide)

end S3Deploy

namespace S3Deploy

/-- Embeds the etag cleanup re.sub in getS3Files: strip one pair of
surrounding double quotes when the string has one at each end (entity
tags contain no newline, so the newline restriction of the regex dot is
moot). -/
def stripQuotes (s : String) : String :=
  if 2 ≤ s.data.length && s.data.headD ' ' == '"' && s.data.getLastD ' ' == '"'
  then String.mk ((s.data.drop 1).dropLast)
  else s

/-- Stable insertion of a listing entry into a list already sorted
newest-first by `LastModified` (seconds). -/
def insertByModified (o : RawObject) : List RawObject → List RawObject
  | [] => [o]
  | x :: xs =>
    if x.lastModified ≤ o.lastModified then o :: x :: xs
    else x :: insertByModified o xs

/-- Embeds the sorted call of getS3Files: stable sort on the
LastModified timestamp (seconds), newest first. -/
def sortByModifiedDesc : List RawObject → List RawObject
  | [] => []
  | x :: xs => insertByModified x (sortByModifiedDesc xs)

/-- Embeds Deploy.getS3Files(sBucket, sPrefix): `oResponse` models the
`list_objects_v2` reply, `none` standing for a reply without a Contents
key.  Entries are sorted newest-first, each key has every occurrence of
the prefix followed by a slash removed (the Python str.replace replaces
all occurrences), etag quotes are stripped.  The Python aFiles dict
(unique S3 keys) is modelled as the association list in insertion
order. -/
def getS3Files (oResponse : Option (List RawObject)) (pfx : String) :
    List FileRecord :=
  match oResponse with
  | none => []
  | some aContents =>
    (sortByModifiedDesc aContents).map (fun o =>
      { key := o.key.replace (pfx ++ "/") ""
        etag := stripQuotes o.etag
        size := o.size
        modified := o.lastModified })

/-- The literal scanned for by the re.findall url extraction of
maintainVersions. -/
def urlPattern : List Char := "\"url\": \"/".data

/-- Left-to-right non-overlapping scan for `urlPattern`; the lazy group
runs to the next double quote, and a match without its closing quote is
no match (and then nothing later can match either, since the pattern
itself needs a quote).  `fuel` is the length of the scanned text. -/
def extractUrlsAux (fuel : Nat) (cs : List Char) : List String :=
  match fuel, cs with
  | 0, _ => []
  | _ + 1, [] => []
  | fuel + 1, c :: rest =>
    if isPrefixChars urlPattern (c :: rest) then
      let after := (c :: rest).drop urlPattern.length
      let url := after.takeWhile (fun ch => !(ch == '"'))
      match after.drop url.length with
      | '"' :: tail => String.mk url :: extractUrlsAux fuel tail
      | _ => []
    else extractUrlsAux fuel rest

/-- Embeds the re.findall url extraction applied to the fetched manifest
body. -/
def extractUrls (body : String) : List String :=
  extractUrlsAux body.data.length body.data

/-- The manifest-collection loop of `Deploy.maintainVersions`: walk the
inventory in listing order, appending records whose key matches the
manifest pattern and is among the deletion candidates, breaking as soon
as `len(aManifests) >= iVersions` (checked before each record, so a
non-positive `iVersions` collects nothing). -/
def selectManifests (aOldS3Files : List String) (iVersions : Int) :
    List FileRecord → List FileRecord
  | [] => []
  | r :: rs =>
    if iVersions ≤ 0 then []
    else if isManifestKey r.key && aOldS3Files.contains r.key then
      r :: selectManifests aOldS3Files (iVersions - 1) rs
    else selectManifests aOldS3Files iVersions rs

/-- The `aExclude` array of `Deploy.maintainVersions`: the own key of
each selected manifest followed by every url extracted from its fetched
body. -/
def excludeList (store : String → String) (pfx : String)
    (aManifests : List FileRecord) : List String :=
  aManifests.flatMap (fun o =>
    o.key :: extractUrls (store (pfx ++ "/" ++ o.key)))

/-- Embeds Deploy.maintainVersions(aS3FileInfo, aOldS3Files, iVersions,
sBucket, sPrefix): the returned list, the set difference of aOldS3Files
and aExclude, is modelled up to set semantics as a filter of the
candidate list. -/
def maintainVersions (store : String → String) (aS3FileInfo : List FileRecord)
    (aOldS3Files : List String) (iVersions : Int) (pfx : String) :
    List String :=
  let aManifests := selectManifests aOldS3Files iVersions aS3FileInfo
  let aExclude := excludeList store pfx aManifests
  aOldS3Files.filter (fun f => !(aExclude.contains f))

/-- Stated from the spec, for comparison with the loop in
`maintainVersions`: the qualifying manifest records (manifest-named keys
that are also deletion candidates) in inventory order, truncated to the
first `versionsToKeep`. -/
def specSelectedManifests (aS3FileInfo : List FileRecord)
    (aOldS3Files : List String) (iVersions : Int) : List FileRecord :=
  (aS3FileInfo.filter (fun r =>
    isManifestKey r.key && aOldS3Files.contains r.key)).take iVersions.toNat

end S3Deploy

namespace S3Deploy

/-- C9: an empty or missing remote listing yields an empty inventory. -/
theorem getS3Files_empty_listing (oResponse : Option (List RawObject))
    (pfx : String)
    (h : oResponse = none ∨ oResponse = some []) :
    getS3Files oResponse pfx = [] := by
  rcases h with h | h <;> subst h <;> rfl

/-- Witness for C9 at a concrete input. -/
theorem getS3Files_empty_listing_witness :
    getS3Files none "deployments/p/d" = [] :=
  getS3Files_empty_listing none "deployments/p/d" (Or.inl rfl)

/-- The collection loop of `maintainVersions` takes exactly the first
`iVersions` qualifying manifest records, in inventory order. -/
theorem selectManifests_eq_take_filter (aOldS3Files : List String) :
    ∀ (inv : List FileRecord) (k : Int),
      selectManifests aOldS3Files k inv =
        (inv.filter (fun r =>
          isManifestKey r.key && aOldS3Files.contains r.key)).take k.toNat := by
  intro inv
  induction inv with
  | nil => intro k; simp [selectManifests]
  | cons r rs ih =>
    intro k
    by_cases hk : k ≤ 0
    · have hk0 : k.toNat = 0 := Int.toNat_of_nonpos hk
      simp [selectManifests, hk, hk0]
    · push_neg at hk
      by_cases hq : (isManifestKey r.key && aOldS3Files.contains r.key) = true
      · have hts : k.toNat = ((k - 1).toNat) + 1 := by omega
        simp only [selectManifests]
        rw [if_neg (not_le.mpr hk), if_pos hq, ih, hts, List.filter_cons,
          if_pos hq, List.take_succ_cons]
      · have hqf : (isManifestKey r.key && aOldS3Files.contains r.key) = false :=
          Bool.eq_false_iff.mpr hq
        simp only [selectManifests]
        rw [if_neg (not_le.mpr hk), if_neg hq]
        simp only [List.filter_cons, hqf, Bool.false_eq_true, if_false]
        exact ih k

/-- The key of every selected manifest, and every url of its fetched
body, is in the exclusion list. -/
theorem mem_excludeList (store : String → String) (pfx : String)
    (aManifests : List FileRecord) (m : FileRecord)
    (hm : m ∈ aManifests) :
    m.key ∈ excludeList store pfx aManifests ∧
    ∀ u ∈ extractUrls (store (pfx ++ "/" ++ m.key)),
      u ∈ excludeList store pfx aManifests := by
  constructor
  · exact List.mem_flatMap.mpr ⟨m, hm, by simp⟩
  · intro u hu
    exact List.mem_flatMap.mpr ⟨m, hm, by simp [hu]⟩

/-- Membership in the list `maintainVersions` returns. -/
theorem mem_maintainVersions (store : String → String)
    (aS3FileInfo : List FileRecord) (aOldS3Files : List String)
    (iVersions : Int) (pfx : String) (x : String) :
    x ∈ maintainVersions store aS3FileInfo aOldS3Files iVersions pfx ↔
      x ∈ aOldS3Files ∧
      x ∉ excludeList store pfx
        (specSelectedManifests aS3FileInfo aOldS3Files iVersions) := by
  unfold maintainVersions specSelectedManifests
  rw [selectManifests_eq_take_filter]
  simp [List.mem_filter]

/-- C1: for a remote inventory listed newest-first (as `getS3Files`
produces) and a positive retention count, `maintainVersions` returns
exactly `deleteCandidates` minus the exclusion set built from the first
`versionsToKeep` qualifying manifests (manifest-named keys that are
themselves deletion candidates); the own key of each such manifest and every
asset path its body references are excluded from deletion, and the
selected manifests are the newest qualifying ones. -/
theorem maintainVersions_protects (store : String → String)
    (aS3FileInfo : List FileRecord) (aOldS3Files : List String)
    (iVersions : Int) (pfx : String)
    (hpos : 0 < iVersions)
    (hsorted : aS3FileInfo.Pairwise (fun a b => b.modified ≤ a.modified)) :
    (∀ m ∈ specSelectedManifests aS3FileInfo aOldS3Files iVersions,
        m.key ∉ maintainVersions store aS3FileInfo aOldS3Files iVersions pfx ∧
        ∀ u ∈ extractUrls (store (pfx ++ "/" ++ m.key)),
          u ∉ maintainVersions store aS3FileInfo aOldS3Files iVersions pfx) ∧
    (∀ x, x ∈ maintainVersions store aS3FileInfo aOldS3Files iVersions pfx ↔
        x ∈ aOldS3Files ∧
        x ∉ excludeList store pfx
          (specSelectedManifests aS3FileInfo aOldS3Files iVersions)) ∧
    (∀ m ∈ specSelectedManifests aS3FileInfo aOldS3Files iVersions,
      ∀ q ∈ aS3FileInfo.filter (fun r =>
          isManifestKey r.key && aOldS3Files.contains r.key),
        q ∉ specSelectedManifests aS3FileInfo aOldS3Files iVersions →
        q.modified ≤ m.modified) := by
  refine ⟨?_, mem_maintainVersions store aS3FileInfo aOldS3Files iVersions pfx, ?_⟩
  · intro m hm
    have hex := mem_excludeList store pfx _ m hm
    constructor
    · intro hmem
      exact ((mem_maintainVersions store aS3FileInfo aOldS3Files iVersions
        pfx m.key).mp hmem).2 hex.1
    · intro u hu hmem
      exact ((mem_maintainVersions store aS3FileInfo aOldS3Files iVersions
        pfx u).mp hmem).2 (hex.2 u hu)
  · intro m hm q hq hqn
    have hpf : (aS3FileInfo.filter (fun r =>
        isManifestKey r.key && aOldS3Files.contains r.key)).Pairwise
        (fun a b => b.modified ≤ a.modified) := hsorted.filter _
    have hsplit := List.take_append_drop iVersions.toNat
      (aS3FileInfo.filter (fun r =>
        isManifestKey r.key && aOldS3Files.contains r.key))
    rw [← hsplit, List.pairwise_append] at hpf
    have hqd : q ∈ (aS3FileInfo.filter (fun r =>
        isManifestKey r.key && aOldS3Files.contains r.key)).drop
          iVersions.toNat := by
      have hq2 : q ∈ (aS3FileInfo.filter (fun r =>
          isManifestKey r.key && aOldS3Files.contains r.key)).take
            iVersions.toNat ++ (aS3FileInfo.filter (fun r =>
          isManifestKey r.key && aOldS3Files.contains r.key)).drop
            iVersions.toNat := by rw [hsplit]; exact hq
      rcases List.mem_append.mp hq2 with h | h
      · exact absurd h hqn
      · exact h
    exact hpf.2.2 m hm q hqd

end S3Deploy

namespace S3Deploy

/-- Witness for C1 at a concrete input: one retained manifest referencing
`b.js`; both the manifest and `b.js` escape deletion. -/
theorem maintainVersions_protects_witness :
    (0 : Int) < 1 ∧
    "precache-manifest-a" ∉ maintainVersions (fun _ => "\"url\": \"/b.js\"")
      [⟨"precache-manifest-a", "e1", 1, 10⟩, ⟨"b.js", "e2", 1, 5⟩]
      ["precache-manifest-a", "b.js"] 1 "deployments/p/d" ∧
    "b.js" ∉ maintainVersions (fun _ => "\"url\": \"/b.js\"")
      [⟨"precache-manifest-a", "e1", 1, 10⟩, ⟨"b.js", "e2", 1, 5⟩]
      ["precache-manifest-a", "b.js"] 1 "deployments/p/d" := by
  have h := maintainVersions_protects (fun _ => "\"url\": \"/b.js\"")
    [⟨"precache-manifest-a", "e1", 1, 10⟩, ⟨"b.js", "e2", 1, 5⟩]
    ["precache-manifest-a", "b.js"] 1 "deployments/p/d" (by decide) (by decide)
  refine ⟨by decide, ?_, ?_⟩
  · exact (h.1 ⟨"precache-manifest-a", "e1", 1, 10⟩ (by decide)).1
  · exact (h.1 ⟨"precache-manifest-a", "e1", 1, 10⟩ (by decide)).2 "b.js" (by decide)

/-- One remote-store or CDN action of a run. -/
inductive Effect where
  | putObject (bucket key cacheControl : String)
  | deleteObject (bucket key : String)
  | getObject (bucket key : String)
  | createInvalidation (distId : String)
  deriving Repr, DecidableEq

/-- The long-lived cache-control value sCacheAlways, formatted from
CACHE_SECONDS. -/
def sCacheAlways : String := "max-age=" ++ toString CACHE_SECONDS ++ ", public"

/-- The no-cache cache-control value sCacheNever from
`Deploy.transferFiles`. -/
def sCacheNever : String :=
  "max-age=0, no-cache, must-revalidate, proxy-revalidate, no-store"

/-- The cache-control header `Deploy.transferFiles` chooses for a file:
the long-lived policy when `searchList(sFile, NO_CACHE_FILES) is False`,
the no-cache policy otherwise. -/
def cacheControlFor (sFile : String) : String :=
  match searchList sFile NO_CACHE_FILES with
  | none => sCacheAlways
  | some _ => sCacheNever

/-- Embeds Deploy.transferFiles: the `put_object` calls it performs
(none per file under dry-run). -/
def transferFiles (sBucket pfx : String) (aFiles : List String)
    (bDryRun : Bool) : List Effect :=
  aFiles.flatMap (fun f =>
    if bDryRun then []
    else [Effect.putObject sBucket (pfx ++ "/" ++ f) (cacheControlFor f)])

/-- Embeds Deploy.removeS3Files: the `delete_object` calls it performs
(none per file under dry-run). -/
def removeS3Files (sBucket pfx : String) (aFiles : List String)
    (bDryRun : Bool) : List Effect :=
  aFiles.flatMap (fun f =>
    if bDryRun then []
    else [Effect.deleteObject sBucket (pfx ++ "/" ++ f)])

/-- Reads issued by `Deploy.maintainVersions`: one `get_object` per
selected manifest; these reads are not gated on dry-run. -/
def maintainVersionsReads (sBucket pfx : String)
    (aS3FileInfo : List FileRecord) (aOldS3Files : List String)
    (iVersions : Int) : List Effect :=
  (selectManifests aOldS3Files iVersions aS3FileInfo).map (fun o =>
    Effect.getObject sBucket (pfx ++ "/" ++ o.key))

/-- Embeds Deploy.clearCloudFront: a full invalidation unless under
dry-run. -/
def clearCloudFront (sDistId : String) (bDryRun : Bool) : List Effect :=
  if bDryRun then [] else [Effect.createInvalidation sDistId]

/-- The command-line options the sync path reads. -/
structure CmdOptions where
  sProduct : String
  sDeployment : String
  bDryRun : Bool
  bForceTransfer : Bool
  bInvalidCFOnly : Bool
  iVersions : Option Int
  deriving Repr, DecidableEq

/-- Outcome of one orchestrated run: the two computed sets and the trace
of remote calls. -/
structure SyncResult where
  toUpload : List String
  toDelete : List String
  effects : List Effect
  deriving Repr, DecidableEq

/-- The retention gate in `Deploy.syncToS3`:
`if self.oCmdOptions.iVersions and int(self.oCmdOptions.iVersions) > 0`
(`iVersions` is truthy when set and nonzero). -/
def applyVersionGuard (opts : CmdOptions) (store : String → String)
    (aS3FileInfo : List FileRecord) (aOldS3Files : List String)
    (pfx : String) : List String :=
  match opts.iVersions with
  | none => aOldS3Files
  | some n =>
    if n ≠ 0 then
      if 0 < n then maintainVersions store aS3FileInfo aOldS3Files n pfx
      else aOldS3Files
    else aOldS3Files

/-- The `get_object` reads issued by the retention gate. -/
def applyVersionGuardReads (opts : CmdOptions) (sBucket pfx : String)
    (aS3FileInfo : List FileRecord) (aOldS3Files : List String) :
    List Effect :=
  match opts.iVersions with
  | none => []
  | some n =>
    if n ≠ 0 then
      if 0 < n then maintainVersionsReads sBucket pfx aS3FileInfo aOldS3Files n
      else []
    else []

/-- Embeds Deploy.syncToS3: build the local listing (given), fetch and
shape the remote listing, reconcile, apply the retention gate, then
transfer new files and remove old ones. -/
def syncToS3 (opts : CmdOptions) (sBucket : String)
    (localMd5 : String → String) (aBuildFiles : List String)
    (oResponse : Option (List RawObject)) (store : String → String) :
    SyncResult :=
  if opts.bInvalidCFOnly then ⟨[], [], []⟩
  else
    let pfx := "deployments/" ++ opts.sProduct ++ "/" ++ opts.sDeployment
    let aS3FileInfo := getS3Files oResponse pfx
    let compared := compareFiles opts.bForceTransfer localMd5 aBuildFiles aS3FileInfo
    let aOldS3Files := applyVersionGuard opts store aS3FileInfo compared.2 pfx
    ⟨compared.1, aOldS3Files,
      applyVersionGuardReads opts sBucket pfx aS3FileInfo compared.2 ++
        transferFiles sBucket pfx compared.1 opts.bDryRun ++
        removeS3Files sBucket pfx aOldS3Files opts.bDryRun⟩

/-- Embeds the effectful tail of Deploy.main: `syncToS3` then
`clearCloudFront`. -/
def runDeploy (opts : CmdOptions) (sBucket sDistId : String)
    (localMd5 : String → String) (aBuildFiles : List String)
    (oResponse : Option (List RawObject)) (store : String → String) :
    SyncResult :=
  let r := syncToS3 opts sBucket localMd5 aBuildFiles oResponse store
  ⟨r.toUpload, r.toDelete, r.effects ++ clearCloudFront sDistId opts.bDryRun⟩

/-- Mutating remote calls: `put_object`, `delete_object`,
`create_invalidation`; `get_object` is a read. -/
def isMutation : Effect → Bool
  | .putObject _ _ _ => true
  | .deleteObject _ _ => true
  | .createInvalidation _ => true
  | .getObject _ _ => false

end S3Deploy

namespace S3Deploy

/-- The retention gate leaves the candidate list untouched when
`iVersions` is absent or zero. -/
theorem applyVersionGuard_zero (opts : CmdOptions) (store : String → String)
    (aS3FileInfo : List FileRecord) (aOldS3Files : List String) (pfx : String)
    (hv : opts.iVersions = none ∨ opts.iVersions = some 0) :
    applyVersionGuard opts store aS3FileInfo aOldS3Files pfx = aOldS3Files := by
  unfold applyVersionGuard
  rcases hv with hv | hv <;> rw [hv] <;> simp

/-- The retention gate issues no reads when `iVersions` is absent or
zero. -/
theorem applyVersionGuardReads_zero (opts : CmdOptions) (sBucket pfx : String)
    (aS3FileInfo : List FileRecord) (aOldS3Files : List String)
    (hv : opts.iVersions = none ∨ opts.iVersions = some 0) :
    applyVersionGuardReads opts sBucket pfx aS3FileInfo aOldS3Files = [] := by
  unfold applyVersionGuardReads
  rcases hv with hv | hv <;> rw [hv] <;> simp

/-- Whatever the options, the gate can only shrink the candidate list. -/
theorem applyVersionGuard_subset (opts : CmdOptions) (store : String → String)
    (aS3FileInfo : List FileRecord) (aOldS3Files : List String) (pfx : String) :
    ∀ x ∈ applyVersionGuard opts store aS3FileInfo aOldS3Files pfx,
      x ∈ aOldS3Files := by
  intro x hx
  unfold applyVersionGuard at hx
  rcases hv : opts.iVersions with _ | n <;> rw [hv] at hx <;> dsimp only at hx
  · exact hx
  · by_cases h0 : n ≠ 0
    · rw [if_pos h0] at hx
      by_cases hp : 0 < n
      · rw [if_pos hp] at hx
        exact ((mem_maintainVersions store aS3FileInfo aOldS3Files n pfx x).mp hx).1
      · rw [if_neg hp] at hx; exact hx
    · rw [if_neg h0] at hx; exact hx

/-- Every effect of `transferFiles` is a `put_object` of a listed file
with its chosen cache policy. -/
theorem mem_transferFiles (sBucket pfx : String) (aFiles : List String)
    (bDryRun : Bool) (e : Effect)
    (he : e ∈ transferFiles sBucket pfx aFiles bDryRun) :
    ∃ f ∈ aFiles,
      e = Effect.putObject sBucket (pfx ++ "/" ++ f) (cacheControlFor f) := by
  simp only [transferFiles, List.mem_flatMap] at he
  obtain ⟨f, hf, hef⟩ := he
  split at hef
  · simp at hef
  · simp only [List.mem_singleton] at hef
    exact ⟨f, hf, hef⟩

/-- Every effect of `removeS3Files` is a `delete_object` of a listed
file. -/
theorem mem_removeS3Files (sBucket pfx : String) (aFiles : List String)
    (bDryRun : Bool) (e : Effect)
    (he : e ∈ removeS3Files sBucket pfx aFiles bDryRun) :
    ∃ f ∈ aFiles, e = Effect.deleteObject sBucket (pfx ++ "/" ++ f) := by
  simp only [removeS3Files, List.mem_flatMap] at he
  obtain ⟨f, hf, hef⟩ := he
  split at hef
  · simp at hef
  · simp only [List.mem_singleton] at hef
    exact ⟨f, hf, hef⟩

/-- Every effect of the retention gate is a `get_object`. -/
theorem mem_guardReads (opts : CmdOptions) (sBucket pfx : String)
    (aS3FileInfo : List FileRecord) (aOldS3Files : List String) (e : Effect)
    (he : e ∈ applyVersionGuardReads opts sBucket pfx aS3FileInfo aOldS3Files) :
    ∃ b k, e = Effect.getObject b k := by
  unfold applyVersionGuardReads at he
  split at he
  · simp at he
  · split at he
    · split at he
      · simp only [maintainVersionsReads, List.mem_map] at he
        obtain ⟨o, _, rfl⟩ := he
        exact ⟨_, _, rfl⟩
      · simp at he
    · simp at he

/-- C6: with the sync path taken and `iVersions` absent or zero, the
candidate set proceeds to deletion unmodified and no manifest body is
fetched. -/
theorem zero_retention_skips_guard (opts : CmdOptions) (sBucket : String)
    (localMd5 : String → String) (aBuildFiles : List String)
    (oResponse : Option (List RawObject)) (store : String → String)
    (hico : opts.bInvalidCFOnly = false)
    (hv : opts.iVersions = none ∨ opts.iVersions = some 0) :
    (syncToS3 opts sBucket localMd5 aBuildFiles oResponse store).toDelete =
      (compareFiles opts.bForceTransfer localMd5 aBuildFiles
        (getS3Files oResponse
          ("deployments/" ++ opts.sProduct ++ "/" ++ opts.sDeployment))).2 ∧
    ∀ b k, Effect.getObject b k ∉
      (syncToS3 opts sBucket localMd5 aBuildFiles oResponse store).effects := by
  constructor
  · simp only [syncToS3, hico, Bool.false_eq_true, if_false]
    rw [applyVersionGuard_zero _ _ _ _ _ hv]
  · intro b k hmem
    simp only [syncToS3, hico, Bool.false_eq_true, if_false] at hmem
    rw [applyVersionGuardReads_zero _ _ _ _ _ hv] at hmem
    simp only [List.nil_append, List.mem_append] at hmem
    rcases hmem with hmem | hmem
    · obtain ⟨f, _, hf⟩ := mem_transferFiles _ _ _ _ _ hmem
      exact Effect.noConfusion hf
    · obtain ⟨f, _, hf⟩ := mem_removeS3Files _ _ _ _ _ hmem
      exact Effect.noConfusion hf

/-- Witness for C6 at a concrete input. -/
theorem zero_retention_skips_guard_witness :
    (syncToS3 ⟨"p", "d", false, false, false, none⟩ "bkt" (fun _ => "e")
      ["index.html"] none (fun _ => "")).toDelete =
      (compareFiles false (fun _ => "e") ["index.html"]
        (getS3Files none ("deployments/" ++ "p" ++ "/" ++ "d"))).2 ∧
    Effect.getObject "bkt" "x" ∉
      (syncToS3 ⟨"p", "d", false, false, false, none⟩ "bkt" (fun _ => "e")
        ["index.html"] none (fun _ => "")).effects := by
  have h := zero_retention_skips_guard ⟨"p", "d", false, false, false, none⟩
    "bkt" (fun _ => "e") ["index.html"] none (fun _ => "") rfl (Or.inl rfl)
  exact ⟨h.1, h.2 "bkt" "x"⟩

/-- C10: protection only ever shrinks the deletion-candidate set - for
every retention value, including values larger than the number of
qualifying manifests and negative values - and the finally applied
deletion list of the orchestrated sync is always a subset of the
candidate list of the reconciler. -/
theorem deletion_subset_candidates (store : String → String)
    (aS3FileInfo : List FileRecord) (aOldS3Files : List String)
    (iVersions : Int) (pfx : String) (opts : CmdOptions) (sBucket : String)
    (localMd5 : String → String) (aBuildFiles : List String)
    (oResponse : Option (List RawObject)) :
    (∀ x ∈ maintainVersions store aS3FileInfo aOldS3Files iVersions pfx,
      x ∈ aOldS3Files) ∧
    (∀ x ∈ (syncToS3 opts sBucket localMd5 aBuildFiles oResponse store).toDelete,
      x ∈ (compareFiles opts.bForceTransfer localMd5 aBuildFiles
        (getS3Files oResponse
          ("deployments/" ++ opts.sProduct ++ "/" ++ opts.sDeployment))).2) := by
  constructor
  · intro x hx
    exact ((mem_maintainVersions store aS3FileInfo aOldS3Files iVersions
      pfx x).mp hx).1
  · intro x hx
    by_cases hico : opts.bInvalidCFOnly = true
    · simp [syncToS3, hico] at hx
    · have hico2 : opts.bInvalidCFOnly = false := by
        cases h : opts.bInvalidCFOnly
        · rfl
        · exact absurd h hico
      simp only [syncToS3, hico2, Bool.false_eq_true, if_false] at hx
      exact applyVersionGuard_subset _ _ _ _ _ x hx

end S3Deploy

namespace S3Deploy

/-- Under `--dry-run`, `transferFiles` performs no calls. -/
theorem transferFiles_dryRun (sBucket pfx : String) (aFiles : List String) :
    transferFiles sBucket pfx aFiles true = [] := by
  induction aFiles with
  | nil => rfl
  | cons f fs ih => simpa [transferFiles] using ih

/-- Under `--dry-run`, `removeS3Files` performs no calls. -/
theorem removeS3Files_dryRun (sBucket pfx : String) (aFiles : List String) :
    removeS3Files sBucket pfx aFiles true = [] := by
  induction aFiles with
  | nil => rfl
  | cons f fs ih => simpa [removeS3Files] using ih

/-- C7: a dry run performs no `put_object`, `delete_object` or
`create_invalidation`, and computes the same `toUpload` and `toDelete`
as the non-dry run on the same inputs. -/
theorem dryRun_no_side_effects (opts : CmdOptions) (sBucket sDistId : String)
    (localMd5 : String → String) (aBuildFiles : List String)
    (oResponse : Option (List RawObject)) (store : String → String) :
    (∀ e ∈ (runDeploy { opts with bDryRun := true } sBucket sDistId localMd5
        aBuildFiles oResponse store).effects, isMutation e = false) ∧
    (runDeploy { opts with bDryRun := true } sBucket sDistId localMd5
        aBuildFiles oResponse store).toUpload =
      (runDeploy { opts with bDryRun := false } sBucket sDistId localMd5
        aBuildFiles oResponse store).toUpload ∧
    (runDeploy { opts with bDryRun := true } sBucket sDistId localMd5
        aBuildFiles oResponse store).toDelete =
      (runDeploy { opts with bDryRun := false } sBucket sDistId localMd5
        aBuildFiles oResponse store).toDelete := by
  cases hico : opts.bInvalidCFOnly
  · refine ⟨?_, ?_, ?_⟩
    · intro e he
      simp only [runDeploy, syncToS3, hico, Bool.false_eq_true, if_false,
        transferFiles_dryRun, removeS3Files_dryRun, clearCloudFront,
        if_true, List.append_nil, List.mem_append] at he
      obtain ⟨b, k, rfl⟩ := mem_guardReads _ _ _ _ _ _ he
      rfl
    · simp only [runDeploy, syncToS3, hico, Bool.false_eq_true, if_false]
    · simp only [runDeploy, syncToS3, hico, Bool.false_eq_true, if_false,
        applyVersionGuard]
  · refine ⟨?_, ?_, ?_⟩
    · intro e he
      simp [runDeploy, syncToS3, hico, clearCloudFront] at he
    · simp [runDeploy, syncToS3, hico]
    · simp [runDeploy, syncToS3, hico]

/-- Witness for C7 at a concrete input. -/
theorem dryRun_no_side_effects_witness :
    (runDeploy ⟨"p", "d", true, false, false, none⟩ "bkt" "dist"
      (fun _ => "e") ["index.html"] none (fun _ => "")).toUpload =
    (runDeploy ⟨"p", "d", false, false, false, none⟩ "bkt" "dist"
      (fun _ => "e") ["index.html"] none (fun _ => "")).toUpload :=
  (dryRun_no_side_effects ⟨"p", "d", false, false, false, none⟩ "bkt" "dist"
    (fun _ => "e") ["index.html"] none (fun _ => "")).2.1

end S3Deploy

namespace S3Deploy

/-- The cache policy choice as a case split on the two no-cache names. -/
theorem cacheControlFor_eq (f : String) :
    cacheControlFor f =
      (if f = "index.html" ∨ f = "asset-manifest.json"
       then sCacheNever else sCacheAlways) := by
  by_cases h1 : f = "index.html"
  · subst h1
    rw [if_pos (Or.inl rfl)]
    rfl
  · by_cases h2 : f = "asset-manifest.json"
    · subst h2
      rw [if_pos (Or.inr rfl)]
      rfl
    · rw [if_neg (by simp [h1, h2])]
      have hb1 : ("index.html" == f) = false :=
        beq_eq_false_iff_ne.mpr (Ne.symm h1)
      have hb2 : ("asset-manifest.json" == f) = false :=
        beq_eq_false_iff_ne.mpr (Ne.symm h2)
      simp [cacheControlFor, searchList, NO_CACHE_FILES, List.indexOf?,
        List.findIdx?_cons, List.findIdx?_nil, hb1, hb2]

/-- The two policies differ. -/
theorem sCacheNever_ne_sCacheAlways : sCacheNever ≠ sCacheAlways := by decide

/-- C8: every uploaded file is put with the no-cache policy exactly when
it is `index.html` or `asset-manifest.json`, and with the long-lived
(90-day, public) policy otherwise. -/
theorem transferFiles_cache_policy (sBucket pfx : String)
    (aFiles : List String) (f : String) (hf : f ∈ aFiles) :
    Effect.putObject sBucket (pfx ++ "/" ++ f) (cacheControlFor f) ∈
      transferFiles sBucket pfx aFiles false ∧
    (cacheControlFor f = sCacheNever ↔
      (f = "index.html" ∨ f = "asset-manifest.json")) ∧
    (cacheControlFor f = sCacheAlways ↔
      ¬(f = "index.html" ∨ f = "asset-manifest.json")) ∧
    sCacheAlways = "max-age=7776000, public" := by
  refine ⟨List.mem_flatMap.mpr ⟨f, hf, by simp⟩, ?_, ?_, by decide⟩
  · rw [cacheControlFor_eq]
    by_cases h : f = "index.html" ∨ f = "asset-manifest.json"
    · simp [h]
    · simp [h, if_neg h]
      exact fun habs => absurd habs.symm sCacheNever_ne_sCacheAlways
  · rw [cacheControlFor_eq]
    by_cases h : f = "index.html" ∨ f = "asset-manifest.json"
    · simp [h]
      exact fun habs => absurd habs sCacheNever_ne_sCacheAlways
    · simp [h, if_neg h]

/-- Witness for C8 at a concrete input. -/
theorem transferFiles_cache_policy_witness :
    Effect.putObject "bkt" ("deployments/p/d" ++ "/" ++ "index.html")
      (cacheControlFor "index.html") ∈
      transferFiles "bkt" "deployments/p/d" ["index.html", "a.js"] false ∧
    (cacheControlFor "index.html" = sCacheNever ↔
      ("index.html" = "index.html" ∨ "index.html" = "asset-manifest.json")) ∧
    (cacheControlFor "index.html" = sCacheAlways ↔
      ¬("index.html" = "index.html" ∨ "index.html" = "asset-manifest.json")) ∧
    sCacheAlways = "max-age=7776000, public" :=
  transferFiles_cache_policy "bkt" "deployments/p/d" ["index.html", "a.js"]
    "index.html" (by decide)

/-- Witness for C2 at a concrete input. -/
theorem compareFiles_disjoint_subsets_witness :
    ¬("index.html" ∈ (compareFiles false (fun _ => "e") ["index.html"]
        [⟨"old.js", "e", 1, 0⟩]).1 ∧
      "index.html" ∈ (compareFiles false (fun _ => "e") ["index.html"]
        [⟨"old.js", "e", 1, 0⟩]).2) :=
  (compareFiles_disjoint_subsets false (fun _ => "e") ["index.html"]
    [⟨"old.js", "e", 1, 0⟩]).1 "index.html"

/-- Witness for C10 at a concrete input. -/
theorem deletion_subset_candidates_witness :
    ∀ x ∈ maintainVersions (fun _ => "") [⟨"precache-manifest-a", "e", 1, 5⟩]
      ["precache-manifest-a"] (-3) "deployments/p/d",
      x ∈ ["precache-manifest-a"] :=
  (deletion_subset_candidates (fun _ => "") [⟨"precache-manifest-a", "e", 1, 5⟩]
    ["precache-manifest-a"] (-3) "deployments/p/d"
    ⟨"p", "d", false, false, false, none⟩ "bkt" (fun _ => "e") [] none).1

end S3Deploy
